import Mathlib

/-!
Verification development for the kanpy repository (src/kanpy).

The Python domain model (loader.py) and synchronization worker (sync.py)
are shallowly embedded below.  Timestamps are modelled as rationals
(seconds since an arbitrary epoch), so that `(out - in).total_seconds() / 3600`
becomes exact rational arithmetic.  The external business-hours calculator
(`officehours.Calculator`) is modelled by abstract function parameters
`wh` (working_hours) and `dd` (due_date); the configured current moment
(`settings.today`) by a parameter `today`.
-/

namespace Kanpy

/-- A workflow station, as built by `Station.__init__` in loader.py:
keyed by its `Position`, carrying the two target-formula coefficients
(`size`, `card`) and an optional owning phase (set by `Phase.__init__`),
identified here by the phase's position. -/
structure Station where
  id : ℕ
  phase : Option ℕ
  size : ℚ
  card : ℚ
deriving DecidableEq, Repr

/-- A lane, as built by `Lane.__init__`: identifier, title, and the
owning station back-reference (`lane.station`, set by `Station.__init__`,
`None` for lanes outside every station). -/
structure Lane where
  id : ℕ
  title : String
  station : Option Station
deriving DecidableEq, Repr

/-- The part of a `Board` that the card analytics read: the lane map
(`board.lanes`, keyed by lane id) and the station map (`board.stations`,
keyed by position). -/
structure Board where
  lanes : List (ℕ × Lane)
  stations : List (ℕ × Station)
deriving Repr

/-- Association-list lookup with decidable key equality; models Python's
`dict.get` (returning `none` when the key is absent). -/
def assocFind {K V : Type} [DecidableEq K] (k : K) : List (K × V) → Option V
  | [] => none
  | (k', v) :: rest => if k' = k then some v else assocFind k rest

/-- `board.lanes.get(lane_id)`. -/
def Board.getLane (b : Board) (laneId : ℕ) : Option Lane :=
  assocFind laneId b.lanes

/-- One card history event, mirroring the four event DTO types stored in
the `events` collection.  `creation` and `move` carry the lane fields the
code reads (`ToLaneId` for the first record, `FromLaneId`/`ToLaneId` for
moves); the other kinds carry only their timestamp here since the move
reconstruction ignores their payload. -/
inductive Event where
  | creation (dateTime : ℚ) (toLaneId : ℕ)
  | move (dateTime : ℚ) (fromLaneId toLaneId : ℕ)
  | fieldsChanged (dateTime : ℚ)
  | comment (dateTime : ℚ)
deriving DecidableEq, Repr

/-- The timestamp of an event (`event['DateTime']`). -/
def Event.dateTime : Event → ℚ
  | .creation t _ => t
  | .move t _ _ => t
  | .fieldsChanged t => t
  | .comment t => t

/-- `Card.creation_date`: the timestamp of the first creation event in the
history, if any. -/
def creationDate : List Event → Option ℚ
  | [] => none
  | .creation t _ :: _ => some t
  | _ :: rest => creationDate rest

/-- `Card.first_date`: the timestamp of the first history event.  The
Board constructor guarantees a nonempty history (see `loadHistories`
below), so the default for `[]` is never reached by a loaded card. -/
def firstDate : List Event → ℚ
  | [] => 0
  | e :: _ => e.dateTime

/-- `self.history[0]['ToLaneId']`: the destination lane id of the first
history record (`none` models the record kinds that lack the field). -/
def headToLaneId : List Event → Option ℕ
  | .creation _ l :: _ => some l
  | .move _ _ l :: _ => some l
  | _ => none

/-- One derived lane occupancy (`Card.moves` list element): occupied lane
(`move['lane']`, an `Option` because `lanes.get` is tolerant), entry time
(`move['in']`) and exit time (`move['out']`, `none` for the final open
occupancy). -/
structure Move where
  lane : Option Lane
  timeIn : ℚ
  timeOut : Option ℚ
deriving DecidableEq, Repr

/-- The event loop inside `Card.moves`: `prev` is `previous_time`, `cur`
is `current_time` (set once the first move is seen), `curLane` is
`current_lane`; after the loop the final open occupancy
`{'lane': current_lane, 'in': current_time or previous_time, 'out': None}`
is appended. -/
def movesLoop (b : Board) (prev : ℚ) (cur : Option ℚ) (curLane : Option Lane) :
    List Event → List Move
  | [] => [⟨curLane, cur.getD prev, none⟩]
  | .move t fromL toL :: rest =>
      ⟨b.getLane fromL, prev, some t⟩ :: movesLoop b t (some t) (b.getLane toL) rest
  | _ :: rest => movesLoop b prev cur curLane rest

/-- `Card.moves()`: walks the sorted history, closing an occupancy at each
move event (lane = the move's origin lane) and finally appending the open
occupancy of the current lane. -/
def movesOf (b : Board) (history : List Event) : List Move :=
  movesLoop b ((creationDate history).getD (firstDate history)) none
    ((headToLaneId history).bind b.getLane) history

/-- One `Card.timeline()` entry: a completed occupancy annotated with
elapsed wall hours (`move['time']`) and working hours (`move['trt']`). -/
structure TimedMove where
  lane : Option Lane
  timeIn : ℚ
  timeOut : ℚ
  time : ℚ
  trt : ℚ
deriving DecidableEq, Repr

/-- `Card.timeline()`: the moves with a recorded exit, each annotated with
`time = (out - in).total_seconds() / 3600` and
`trt = timeutils.working_hours(in, out)` (the abstract calculator `wh`). -/
def timelineOf (wh : ℚ → ℚ → ℚ) (b : Board) (history : List Event) : List TimedMove :=
  (movesOf b history).filterMap fun m =>
    m.timeOut.map fun out => ⟨m.lane, m.timeIn, out, (out - m.timeIn) / 3600, wh m.timeIn out⟩

/-- The card fields the target formula reads: `card.size` (story-size
units). -/
structure CardData where
  size : ℚ
deriving DecidableEq, Repr

/-- `Bundle.target` (and hence `Station.target`):
`self.size * card.size + self.card`. -/
def Station.target (s : Station) (c : CardData) : ℚ :=
  s.size * c.size + s.card

/-- A `Phase`: its member stations (resolved from positions at
construction time, `Phase.__init__`). -/
structure Phase where
  stations : List Station
deriving Repr

/-- `Phase.target`: `sum([station.target(card) for station in self.stations])`. -/
def Phase.target (p : Phase) (c : CardData) : ℚ :=
  (p.stations.map fun s => s.target c).sum

/-- One aggregation bucket of `Card.lanes` / `Card.stations` /
`Card.phases`: first entry time, last exit time, summed wall hours,
summed working hours, occurrence count. -/
structure Bucket where
  timeIn : ℚ
  timeOut : ℚ
  time : ℚ
  trt : ℚ
  events : ℕ
deriving DecidableEq, Repr

/-- The update applied to an existing bucket `b` when another entry `d`
for the same key arrives: `trt`/`time`/`events` accumulate, `out` is
overwritten by the newcomer's, `in` is kept. -/
def Bucket.merge (b d : Bucket) : Bucket :=
  ⟨b.timeIn, d.timeOut, b.time + d.time, b.trt + d.trt, b.events + d.events⟩

/-- Insert-or-accumulate into an insertion-ordered association list,
modelling the `if key in dict: accumulate else: create` pattern shared by
`Card.lanes`, `Card.stations` and `Card.phases`. -/
def upsert {K : Type} [DecidableEq K] (k : K) (d : Bucket) :
    List (K × Bucket) → List (K × Bucket)
  | [] => [(k, d)]
  | (k', b) :: rest =>
      if k' = k then (k', b.merge d) :: rest else (k', b) :: upsert k d rest

/-- `Card.lanes()`: the timeline aggregated by occupied lane. -/
def lanesOf (wh : ℚ → ℚ → ℚ) (b : Board) (history : List Event) :
    List (Option Lane × Bucket) :=
  (timelineOf wh b history).foldl
    (fun acc e => upsert e.lane ⟨e.timeIn, e.timeOut, e.time, e.trt, 1⟩ acc) []

/-- `Card.stations()`: the `lanes()` aggregation re-bucketed by each
lane's owning station (`lane.station if lane else None`). -/
def stationsOf (wh : ℚ → ℚ → ℚ) (b : Board) (history : List Event) :
    List (Option Station × Bucket) :=
  (lanesOf wh b history).foldl
    (fun acc e => upsert (e.1.bind Lane.station) e.2 acc) []

/-- `Card.phases()`: the `stations()` aggregation re-bucketed by each
station's owning phase (`station.phase if station else None`). -/
def phasesOf (wh : ℚ → ℚ → ℚ) (b : Board) (history : List Event) :
    List (Option ℕ × Bucket) :=
  (stationsOf wh b history).foldl
    (fun acc e => upsert (e.1.bind Station.phase) e.2 acc) []

/-- Total working hours over the buckets of an aggregation. -/
def sumTrt {K : Type} (l : List (K × Bucket)) : ℚ :=
  (l.map fun e => e.2.trt).sum

/-- Total wall hours over the buckets of an aggregation. -/
def sumTime {K : Type} (l : List (K × Bucket)) : ℚ :=
  (l.map fun e => e.2.time).sum

/-- Sum of a bucket projection over an aggregation's entries. -/
def sumBy {K : Type} (f : Bucket → ℚ) (l : List (K × Bucket)) : ℚ :=
  (l.map fun e => f e.2).sum

/-- A raw event record as stored in the `events` collection, reduced to
the two fields the Board constructor's history loading reads: `CardId`
(grouping key) and `Position` (sort key). -/
structure RawEvent where
  cardId : ℕ
  position : ℕ
deriving DecidableEq, Repr

/-- Append one event to its card's group in an insertion-ordered grouping
(the `if event['CardId'] in events: append else: create` loop in
`Board.__init__`). -/
def addEvent (e : RawEvent) : List (ℕ × List RawEvent) → List (ℕ × List RawEvent)
  | [] => [(e.cardId, [e])]
  | (c, evs) :: rest =>
      if c = e.cardId then (c, evs ++ [e]) :: rest else (c, evs) :: addEvent e rest

/-- The grouping of all fetched event records by card identifier. -/
def groupEvents (events : List RawEvent) : List (ℕ × List RawEvent) :=
  events.foldl (fun acc e => addEvent e acc) []

/-- `sorted(events[card_id], key=lambda event: event['Position'])`. -/
def sortByPos (evs : List RawEvent) : List RawEvent :=
  List.insertionSort (fun a b => a.position ≤ b.position) evs

/-- The two ways history loading can fail: the
`assert len(self.cards) == len(events)` data-inconsistency assertion, and
the `events[card_id]` lookup (a KeyError when a card's group is absent
even though the counts agree, possible only with stray event groups). -/
inductive LoadError where
  | countMismatch
  | missingHistory
deriving DecidableEq, Repr

/-- The `for card_id in self.cards: ... events[card_id]` loop: assigns
each card its sorted event group, failing on a missing group. -/
def collectHistories (groups : List (ℕ × List RawEvent)) :
    List ℕ → Except LoadError (List (ℕ × List RawEvent))
  | [] => .ok []
  | c :: rest =>
      match assocFind c groups with
      | none => .error .missingHistory
      | some evs => (collectHistories groups rest).map fun tl => (c, sortByPos evs) :: tl

/-- The history-loading tail of `Board.__init__`: group the board's event
records by card, assert the card count equals the group count, then give
every card its sorted group. -/
def loadHistories (cardIds : List ℕ) (events : List RawEvent) :
    Except LoadError (List (ℕ × List RawEvent)) :=
  let groups := groupEvents events
  if cardIds.length = groups.length then collectHistories groups cardIds
  else .error .countMismatch

/-- Whether a fallible computation succeeded. -/
def isOkE {ε α : Type} : Except ε α → Bool
  | .ok _ => true
  | .error _ => false

/-- Python runtime failures the embedded analytics can raise:
a TypeError (e.g. an unexpected argument, or ordering a datetime against
a bool under Python 3), an UnboundLocalError (reading a local variable
never assigned), a KeyError (strict dict lookup). -/
inductive PyError where
  | typeError
  | unboundLocal
  | keyError
deriving DecidableEq, Repr

/-- The body of `Card.trt(hours)`: total resident time over the moves
whose lane exists and has an owning station, substituting `today` for a
missing exit; working hours when `hours`, else wall hours. -/
def trtBody (wh : ℚ → ℚ → ℚ) (today : ℚ) (b : Board) (history : List Event)
    (hours : Bool) : ℚ :=
  (movesOf b history).foldl
    (fun total m =>
      match m.lane with
      | some lane =>
          if lane.station.isSome then
            total + (if hours then wh m.timeIn (m.timeOut.getD today)
                     else ((m.timeOut.getD today) - m.timeIn) / 3600)
          else total
      | none => total) 0

/-- `Card.trt` as it is actually callable: the `singleton` decorator
replaced the method with a memoizing wrapper whose signature is
`wrapper(self)`, so any call passing the `hours` parameter raises a
TypeError; only the bare call (default `hours=False`) reaches the body. -/
def trtCall (wh : ℚ → ℚ → ℚ) (today : ℚ) (b : Board) (history : List Event)
    (hoursArg : Option Bool) : Except PyError ℚ :=
  match hoursArg with
  | some _ => .error .typeError
  | none => .ok (trtBody wh today b history false)

/-- Does the first list occur as a leading segment of the second? -/
def leadsList : List Char → List Char → Bool
  | [], _ => true
  | _ :: _, [] => false
  | a :: as, b :: bs => a = b && leadsList as bs

/-- Does the pattern occur contiguously anywhere in the list
(Python's `in` on strings)? -/
def containsSeq (pat : List Char) : List Char → Bool
  | [] => leadsList pat []
  | a :: rest => leadsList pat (a :: rest) || containsSeq pat rest

/-- `'major changes' in lane.title.lower()`. -/
def isMajorChangesTitle (title : String) : Bool :=
  containsSeq "major changes".toList (title.toList.map Char.toLower)

/-- The loop of `Card.start_date`: a move into a station-owning lane
records its entry time; otherwise a move into a lane whose lowercased
title contains "major changes" records its entry time and sets the
`_major_changes_` flag.  Later matches overwrite earlier ones.  The
first component is `none` exactly when the local variable `start_date`
was never assigned. -/
def startDateScan (b : Board) (history : List Event) : Option ℚ × Bool :=
  (movesOf b history).foldl
    (fun (acc : Option ℚ × Bool) m =>
      match m.lane with
      | some lane =>
          if lane.station.isSome then (some m.timeIn, acc.2)
          else if isMajorChangesTitle lane.title then (some m.timeIn, true)
          else acc
      | none => acc) (none, false)

/-- `Card.start_date` as a fallible computation: `return start_date`
raises UnboundLocalError when no move ever assigned the variable. -/
def startDateOf (b : Board) (history : List Event) : Except PyError ℚ :=
  match (startDateScan b history).1 with
  | some d => .ok d
  | none => .error .unboundLocal

/-- `Card.major_changes`: evaluates `start_date` first (propagating its
failure) and then reads the cached flag. -/
def majorChangesOf (b : Board) (history : List Event) : Except PyError Bool :=
  (startDateOf b history).map fun _ => (startDateScan b history).2

/-- `Card.trt_lane(lane, hours)`: fetches `self.major_changes` (which may
itself fail), then walks the moves; when the flag is set, the guard
`move['in'] < major_changes` orders a datetime against the boolean `True`,
a TypeError under Python 3 (under Python 2's mixed-type ordering the
comparison is always false, so no move is ever excluded either way). -/
def trt_lane (wh : ℚ → ℚ → ℚ) (today : ℚ) (b : Board) (history : List Event)
    (lane : Lane) (hours : Bool) : Except PyError ℚ :=
  match majorChangesOf b history with
  | .error e => .error e
  | .ok mc =>
      (movesOf b history).foldlM
        (fun total m =>
          if mc then (.error .typeError : Except PyError ℚ)
          else
            match m.lane with
            | some l =>
                if l.id = lane.id then
                  .ok (total + (if hours then wh m.timeIn (m.timeOut.getD today)
                                else ((m.timeOut.getD today) - m.timeIn) / 3600))
                else .ok total
            | none => .ok total) 0

/-- One `plan()` record: `{'station': ..., 'target': ..., 'ect': ...}`. -/
structure PlanEntry where
  station : Station
  target : ℚ
  ect : ℚ
deriving DecidableEq, Repr

/-- `max(self.board.stations)`: the maximum position key (Python's `max`
raises on an empty dict; the 0 default here leaves the plan loop empty,
a case no loaded board with configured stations exercises). -/
def maxStationPos (b : Board) : ℕ :=
  (b.stations.map Prod.fst).foldl max 0

/-- The `plan()` loop from a given seed date: for each position in the
given ascending list, look up the station (`self.board.stations[position]`
is a strict lookup, a KeyError on a missing position), take its target
for the card and chain the business-hours projection `dd target ect`. -/
def planLoop (dd : ℚ → ℚ → ℚ) (b : Board) (c : CardData) :
    List ℕ → ℚ → Except PyError (List (ℕ × PlanEntry))
  | [], _ => .ok []
  | p :: rest, ect =>
      match assocFind p b.stations with
      | none => .error .keyError
      | some st =>
          let tgt := st.target c
          let ect2 := dd tgt ect
          (planLoop dd b c rest ect2).map fun tl => (p, ⟨st, tgt, ect2⟩) :: tl

/-- `Card.plan()`: seeds `ect = self.start_date or today()` and chains the
projection over positions `1 .. max(self.board.stations)`.  Since
`start_date` never returns an absent value but raises when unset, the
`or today()` fallback is unreachable and the failure propagates. -/
def planOf (dd : ℚ → ℚ → ℚ) (b : Board) (c : CardData) (history : List Event) :
    Except PyError (List (ℕ × PlanEntry)) :=
  match startDateOf b history with
  | .error e => .error e
  | .ok sd => planLoop dd b c (List.range' 1 (maxStationPos b)) sd

/-- `Converter.snake_case`, step 1: `camelcase.replace('ID', '_id')` —
every occurrence, scanned left to right. -/
def replaceID : List Char → List Char
  | 'I' :: 'D' :: rest => '_' :: 'i' :: 'd' :: replaceID rest
  | c :: rest => c :: replaceID rest
  | [] => []

/-- `Converter.snake_case`, step 2: `re.sub('([A-Z])', '_' + lowercase)`. -/
def subCaps : List Char → List Char
  | [] => []
  | c :: rest =>
      if c.isUpper then '_' :: c.toLower :: subCaps rest else c :: subCaps rest

/-- `Converter.snake_case`: replace `ID` everywhere, then (for names
longer than one character) lowercase the first character and expand the
remaining capitals; a shorter name is just lowercased. -/
def snake_case (s : List Char) : List Char :=
  let s1 := replaceID s
  if 1 < s1.length then
    match s1 with
    | [] => []
    | c :: rest => subCaps (c.toLower :: rest)
  else s1.map Char.toLower

/-- Modelled from the claim's words, for comparison with `snake_case`:
rewrite an `ID` *suffix* (only) to `_id`, then apply the same camel-case
conversion. -/
def rewriteIDSuffix (s : List Char) : List Char :=
  match s.reverse with
  | 'D' :: 'I' :: rest => rest.reverse ++ ['_', 'i', 'd']
  | _ => s

/-- The claim's translation: ID-suffix rewrite followed by the camel-case
conversion. -/
def snakeCaseSpec (s : List Char) : List Char :=
  let s1 := rewriteIDSuffix s
  if 1 < s1.length then
    match s1 with
    | [] => []
    | c :: rest => subCaps (c.toLower :: rest)
  else s1.map Char.toLower

/-- A stored document field value. -/
inductive DbVal where
  | nat (n : ℕ)
  | bool (b : Bool)
deriving DecidableEq, Repr

/-- A stored document: field names to values. -/
abbrev Doc := List (String × DbVal)

/-- Mongo field-equality filter match: every filter pair must equal the
document's stored field; a document lacking the field never matches. -/
def docMatches (filter doc : Doc) : Bool :=
  filter.all fun kv => decide (assocFind kv.1 doc = some kv.2)

/-- `collection.update(filter, doc)` with the legacy pymongo semantics
sync.py uses: the first matching document is replaced whole by `repl`;
no match leaves the collection unchanged (no upsert). -/
def updateOne (filter repl : Doc) : List Doc → List Doc
  | [] => []
  | d :: rest =>
      if docMatches filter d then repl :: rest else d :: updateOne filter repl rest

/-- `collection.remove(filter)`: delete every matching document. -/
def removeAll (filter : Doc) (coll : List Doc) : List Doc :=
  coll.filter fun d => !docMatches filter d

/-- The archived-vs-deleted reconciliation of `Worker.update` (sync.py):
for every stored, non-archived card id absent from the freshly fetched
board, when the card is still fetchable run
`db.cards.update({'CardId': card_id}, {'InCabinet': True})`, else
`db.cards.remove({'Id': card_id})` and `db.events.remove({'CardId': card_id})`. -/
def reconcileMissing (fetchable : ℕ → Bool) (boardCardIds : List ℕ)
    (storedIds : List ℕ) (cards events : List Doc) : List Doc × List Doc :=
  storedIds.foldl
    (fun (acc : List Doc × List Doc) cid =>
      if boardCardIds.contains cid then acc
      else if fetchable cid then
        (updateOne [("CardId", .nat cid)] [("InCabinet", .bool true)] acc.1, acc.2)
      else
        (removeAll [("Id", .nat cid)] acc.1,
         removeAll [("CardId", .nat cid)] acc.2))
    (cards, events)

/-- A Python attribute value for `Board.deck` filtering: `getattr(card,
key, None)` flattens a missing attribute to `None`, so values and absence
share one type. -/
inductive PyVal where
  | none
  | nat (n : ℕ)
  | str (s : String)
deriving DecidableEq, Repr

/-- A card as `Board.deck` sees it: its attribute dictionary. -/
structure CardAttrs where
  attrs : List (String × PyVal)
deriving DecidableEq, Repr

/-- `getattr(card, key, None)`. -/
def getAttrD (c : CardAttrs) (k : String) : PyVal :=
  (assocFind k c.attrs).getD .none

/-- `Board.deck(include, exclude)`: keep the cards for which every
`include` pair matches the card's attribute, then remove those for which
any `exclude` pair matches. -/
def deck (cards : List CardAttrs) (incl excl : List (String × PyVal)) :
    List CardAttrs :=
  (cards.filter fun c => incl.all fun kv => decide (getAttrD c kv.1 = kv.2)).filter
    fun c => !(excl.any fun kv => decide (getAttrD c kv.1 = kv.2))

end Kanpy

namespace Kanpy

/-- C1: with a history of one creation event (time `t0`) followed by two
move events A→B at `t1` and B→C at `t2`, `moves()` is exactly the three
occupancies A `(t0, t1)`, B `(t1, t2)`, C `(t2, open)`, and `timeline()`
is exactly the first two, each annotated with `time = (exit - entry)/3600`
hours (and `trt` from the working-hours calculator). -/
theorem moves_three_occupancies (b : Board) (wh : ℚ → ℚ → ℚ)
    (t0 t1 t2 : ℚ) (l0 a c bl : ℕ) (la lb lc : Lane)
    (ha : b.getLane a = some la) (hb : b.getLane bl = some lb)
    (hc : b.getLane c = some lc) :
    movesOf b [.creation t0 l0, .move t1 a bl, .move t2 bl c] =
      [⟨some la, t0, some t1⟩, ⟨some lb, t1, some t2⟩, ⟨some lc, t2, none⟩] ∧
    timelineOf wh b [.creation t0 l0, .move t1 a bl, .move t2 bl c] =
      [⟨some la, t0, t1, (t1 - t0) / 3600, wh t0 t1⟩,
       ⟨some lb, t1, t2, (t2 - t1) / 3600, wh t1 t2⟩] := by
  constructor
  · simp [movesOf, movesLoop, creationDate, ha, hb, hc]
  · simp [timelineOf, movesOf, movesLoop, creationDate, ha, hb, hc, List.filterMap]

/-- Witness for C1 at a concrete board and history. -/
theorem sumTrt_eq_sumBy {K : Type} (l : List (K × Bucket)) :
    sumTrt l = sumBy Bucket.trt l := rfl

theorem sumTime_eq_sumBy {K : Type} (l : List (K × Bucket)) :
    sumTime l = sumBy Bucket.time l := rfl

/-- Upserting adds exactly the newcomer's contribution to any additive
bucket projection. -/
theorem sumBy_upsert {K : Type} [DecidableEq K] (f : Bucket → ℚ)
    (hf : ∀ b d : Bucket, f (b.merge d) = f b + f d)
    (k : K) (d : Bucket) (l : List (K × Bucket)) :
    sumBy f (upsert k d l) = sumBy f l + f d := by
  induction l with
  | nil => simp [upsert, sumBy]
  | cons hd tl ih =>
    obtain ⟨k', b⟩ := hd
    by_cases h : k' = k
    · simp only [upsert, if_pos h, sumBy, List.map_cons, List.sum_cons, hf]
      ring
    · simp only [upsert, if_neg h, sumBy, List.map_cons, List.sum_cons] at ih ⊢
      rw [ih]; ring

/-- Folding a list into an aggregation with `upsert` preserves the total
of any additive bucket projection. -/
theorem sumBy_foldl_upsert {K A : Type} [DecidableEq K] (f : Bucket → ℚ)
    (hf : ∀ b d : Bucket, f (b.merge d) = f b + f d)
    (key : A → K) (data : A → Bucket) (items : List A) (acc : List (K × Bucket)) :
    sumBy f (items.foldl (fun acc e => upsert (key e) (data e) acc) acc) =
      sumBy f acc + (items.map fun e => f (data e)).sum := by
  induction items generalizing acc with
  | nil => simp
  | cons hd tl ih =>
    simp only [List.foldl_cons, List.map_cons, List.sum_cons, ih, sumBy_upsert f hf]
    ring

theorem merge_trt_add (b d : Bucket) : (b.merge d).trt = b.trt + d.trt := rfl

theorem merge_time_add (b d : Bucket) : (b.merge d).time = b.time + d.time := rfl

/-- C2: the totals are preserved at each aggregation level — the summed
working hours (`trt`) over the buckets of `lanes()`, `stations()` and
`phases()` coincide, and likewise the summed wall hours (`time`), for any
card with at least one completed move. -/
theorem aggregation_preserves_totals (wh : ℚ → ℚ → ℚ) (b : Board)
    (history : List Event) (h : timelineOf wh b history ≠ []) :
    sumTrt (lanesOf wh b history) = sumTrt (stationsOf wh b history) ∧
    sumTrt (stationsOf wh b history) = sumTrt (phasesOf wh b history) ∧
    sumTime (lanesOf wh b history) = sumTime (stationsOf wh b history) ∧
    sumTime (stationsOf wh b history) = sumTime (phasesOf wh b history) := by
  have key1 : ∀ (f : Bucket → ℚ), (∀ x d : Bucket, f (x.merge d) = f x + f d) →
      sumBy f (stationsOf wh b history) = sumBy f (lanesOf wh b history) := by
    intro f hf
    have h1 := sumBy_foldl_upsert f hf
      (fun e : Option Lane × Bucket => e.1.bind Lane.station)
      (fun e => e.2) (lanesOf wh b history) []
    simpa [stationsOf, sumBy] using h1
  have key2 : ∀ (f : Bucket → ℚ), (∀ x d : Bucket, f (x.merge d) = f x + f d) →
      sumBy f (phasesOf wh b history) = sumBy f (stationsOf wh b history) := by
    intro f hf
    have h2 := sumBy_foldl_upsert f hf
      (fun e : Option Station × Bucket => e.1.bind Station.phase)
      (fun e => e.2) (stationsOf wh b history) []
    simpa [phasesOf, sumBy] using h2
  refine ⟨?_, ?_, ?_, ?_⟩
  · rw [sumTrt_eq_sumBy, sumTrt_eq_sumBy, key1 Bucket.trt merge_trt_add]
  · rw [sumTrt_eq_sumBy, sumTrt_eq_sumBy, key2 Bucket.trt merge_trt_add]
  · rw [sumTime_eq_sumBy, sumTime_eq_sumBy, key1 Bucket.time merge_time_add]
  · rw [sumTime_eq_sumBy, sumTime_eq_sumBy, key2 Bucket.time merge_time_add]

/-- Witness for C2 on a card whose timeline has one completed move. -/
theorem aggregation_preserves_totals_witness :
    timelineOf (fun x y => y - x)
        ⟨[(1, ⟨1, "A", none⟩), (2, ⟨2, "B", none⟩)], []⟩
        [.creation 0 1, .move 3600 1 2] ≠ [] ∧
      (sumTrt (lanesOf (fun x y => y - x)
          ⟨[(1, ⟨1, "A", none⟩), (2, ⟨2, "B", none⟩)], []⟩
          [.creation 0 1, .move 3600 1 2]) =
        sumTrt (stationsOf (fun x y => y - x)
          ⟨[(1, ⟨1, "A", none⟩), (2, ⟨2, "B", none⟩)], []⟩
          [.creation 0 1, .move 3600 1 2])) := by
  have hne : timelineOf (fun x y : ℚ => y - x)
      ⟨[(1, ⟨1, "A", none⟩), (2, ⟨2, "B", none⟩)], []⟩
      [.creation 0 1, .move 3600 1 2] ≠ [] := by
    simp [timelineOf, movesOf, movesLoop, creationDate, Board.getLane, assocFind]
  exact ⟨hne, (aggregation_preserves_totals _ _ _ hne).1⟩

/-- C3: `target(card)` for a Station is `size * card.size + card` (the
bundle's own `card` coefficient); in particular `size = 2`, `card = 1`
and a card of size 3 give 7; and a Phase's `target(card)` is the sum of
its member stations' targets for that card. -/
theorem target_formula :
    (∀ (s : Station) (c : CardData), s.target c = s.size * c.size + s.card) ∧
    (∀ (s : Station) (c : CardData),
      s.size = 2 → s.card = 1 → c.size = 3 → s.target c = 7) ∧
    (∀ (p : Phase) (c : CardData),
      p.target c = (p.stations.map fun s => s.target c).sum) := by
  refine ⟨fun s c => rfl, fun s c hs hc hz => ?_, fun p c => rfl⟩
  simp [Station.target, hs, hc, hz]
  norm_num

/-- Witness for C3 at a concrete station, phase and card. -/
theorem target_formula_witness :
    (⟨1, none, 2, 1⟩ : Station).target ⟨3⟩ = 7 ∧
    (⟨[⟨1, none, 2, 1⟩, ⟨2, none, 2, 1⟩]⟩ : Phase).target ⟨3⟩ =
      ([⟨1, none, 2, 1⟩, ⟨2, none, 2, 1⟩].map fun s : Station => s.target ⟨3⟩).sum :=
  ⟨target_formula.2.1 ⟨1, none, 2, 1⟩ ⟨3⟩ rfl rfl rfl,
   target_formula.2.2 ⟨[⟨1, none, 2, 1⟩, ⟨2, none, 2, 1⟩]⟩ ⟨3⟩⟩

theorem moves_three_occupancies_witness :
    movesOf ⟨[(1, ⟨1, "A", none⟩), (2, ⟨2, "B", none⟩), (3, ⟨3, "C", none⟩)], []⟩
        [.creation 10 1, .move 20 1 2, .move 50 2 3] =
      [⟨some ⟨1, "A", none⟩, 10, some 20⟩, ⟨some ⟨2, "B", none⟩, 20, some 50⟩,
       ⟨some ⟨3, "C", none⟩, 50, none⟩] ∧
    timelineOf (fun x y => y - x) ⟨[(1, ⟨1, "A", none⟩), (2, ⟨2, "B", none⟩), (3, ⟨3, "C", none⟩)], []⟩
        [.creation 10 1, .move 20 1 2, .move 50 2 3] =
      [⟨some ⟨1, "A", none⟩, 10, 20, (20 - 10) / 3600, 20 - 10⟩,
       ⟨some ⟨2, "B", none⟩, 20, 50, (50 - 20) / 3600, 50 - 20⟩] :=
  moves_three_occupancies _ _ 10 20 50 1 1 3 2 _ _ _ rfl rfl rfl

theorem assocFind_addEvent_none (k : ℕ) (e : RawEvent)
    (acc : List (ℕ × List RawEvent)) :
    assocFind k (addEvent e acc) = none ↔
      assocFind k acc = none ∧ e.cardId ≠ k := by
  induction acc with
  | nil =>
    by_cases h : e.cardId = k <;> simp [addEvent, assocFind, h]
  | cons hd tl ih =>
    obtain ⟨c, evs⟩ := hd
    by_cases hc : c = e.cardId
    · subst hc
      by_cases hk : e.cardId = k <;> simp [addEvent, assocFind, hk]
    · by_cases hk : c = k
      · subst hk
        simp [addEvent, assocFind, hc]
      · simp [addEvent, assocFind, hc, hk, ih]

theorem assocFind_foldl_addEvent_none (k : ℕ) (events : List RawEvent)
    (acc : List (ℕ × List RawEvent)) :
    assocFind k (events.foldl (fun acc e => addEvent e acc) acc) = none ↔
      assocFind k acc = none ∧ ∀ e ∈ events, e.cardId ≠ k := by
  induction events generalizing acc with
  | nil => simp
  | cons e tl ih =>
    simp only [List.foldl_cons, ih, assocFind_addEvent_none,
      List.forall_mem_cons, and_assoc]

theorem assocFind_groupEvents_none (k : ℕ) (events : List RawEvent) :
    assocFind k (groupEvents events) = none ↔ ∀ e ∈ events, e.cardId ≠ k := by
  simpa [groupEvents, assocFind] using assocFind_foldl_addEvent_none k events []

theorem addEvent_group_ne_nil (e : RawEvent) (acc : List (ℕ × List RawEvent))
    (h : ∀ p ∈ acc, p.2 ≠ []) : ∀ p ∈ addEvent e acc, p.2 ≠ [] := by
  induction acc with
  | nil => simp [addEvent]
  | cons hd tl ih =>
    obtain ⟨c, evs⟩ := hd
    intro p hp
    by_cases hc : c = e.cardId
    · simp only [addEvent, if_pos hc] at hp
      rcases List.mem_cons.mp hp with heq | hmem
      · subst heq; simp
      · exact h p (List.mem_cons_of_mem _ hmem)
    · simp only [addEvent, if_neg hc] at hp
      rcases List.mem_cons.mp hp with heq | hmem
      · subst heq; exact h _ (List.mem_cons_self _ _)
      · exact ih (fun q hq => h q (List.mem_cons_of_mem _ hq)) p hmem

theorem groupEvents_group_ne_nil (events : List RawEvent) :
    ∀ p ∈ groupEvents events, p.2 ≠ [] := by
  suffices hgen : ∀ acc : List (ℕ × List RawEvent), (∀ p ∈ acc, p.2 ≠ []) →
      ∀ p ∈ events.foldl (fun acc e => addEvent e acc) acc, p.2 ≠ [] by
    exact hgen [] (by simp)
  induction events with
  | nil => intro acc hacc; simpa using hacc
  | cons e tl ih =>
    intro acc hacc
    exact ih (addEvent e acc) (addEvent_group_ne_nil e acc hacc)

theorem assocFind_some_mem {K V : Type} [DecidableEq K] (k : K) (v : V)
    (l : List (K × V)) (h : assocFind k l = some v) : (k, v) ∈ l := by
  induction l with
  | nil => simp [assocFind] at h
  | cons hd tl ih =>
    obtain ⟨k', v'⟩ := hd
    by_cases hk : k' = k
    · subst hk
      simp [assocFind] at h
      subst h; exact List.mem_cons_self _ _
    · simp only [assocFind, if_neg hk] at h
      exact List.mem_cons_of_mem _ (ih h)

theorem sortByPos_ne_nil (evs : List RawEvent) (h : evs ≠ []) :
    sortByPos evs ≠ [] := by
  intro hcon
  have hperm := List.perm_insertionSort
    (fun a b : RawEvent => a.position ≤ b.position) evs
  rw [sortByPos] at hcon
  rw [hcon] at hperm
  exact h hperm.nil_eq.symm

theorem assocFind_none_iff_keys {K V : Type} [DecidableEq K] (k : K)
    (l : List (K × V)) :
    assocFind k l = none ↔ k ∉ l.map Prod.fst := by
  induction l with
  | nil => simp [assocFind]
  | cons hd tl ih =>
    obtain ⟨k', v⟩ := hd
    by_cases h : k' = k
    · subst h; simp [assocFind]
    · simp [assocFind, h, ih, Ne.symm h]

theorem keys_addEvent (e : RawEvent) (acc : List (ℕ × List RawEvent)) :
    (addEvent e acc).map Prod.fst =
      if assocFind e.cardId acc = none then acc.map Prod.fst ++ [e.cardId]
      else acc.map Prod.fst := by
  induction acc with
  | nil => simp [addEvent, assocFind]
  | cons hd tl ih =>
    obtain ⟨c, evs⟩ := hd
    by_cases hc : c = e.cardId
    · simp [addEvent, assocFind, hc]
    · by_cases hf : assocFind e.cardId tl = none <;>
        simp [addEvent, assocFind, hc, hf, ih]

theorem groupEvents_keys_nodup (events : List RawEvent) :
    ((groupEvents events).map Prod.fst).Nodup := by
  suffices hgen : ∀ acc : List (ℕ × List RawEvent), (acc.map Prod.fst).Nodup →
      ((events.foldl (fun acc e => addEvent e acc) acc).map Prod.fst).Nodup by
    exact hgen [] (by simp)
  induction events with
  | nil => intro acc hacc; simpa using hacc
  | cons e tl ih =>
    intro acc hacc
    apply ih
    rw [keys_addEvent]
    by_cases hf : assocFind e.cardId acc = none
    · rw [if_pos hf]
      have hnm : e.cardId ∉ acc.map Prod.fst :=
        (assocFind_none_iff_keys _ _).mp hf
      simp [List.nodup_append, hacc, hnm]
    · rw [if_neg hf]; exact hacc

theorem collectHistories_fails (groups : List (ℕ × List RawEvent))
    (cardIds : List ℕ) (c : ℕ) (hc : c ∈ cardIds)
    (h : assocFind c groups = none) :
    isOkE (collectHistories groups cardIds) = false := by
  induction cardIds with
  | nil => simp at hc
  | cons a tl ih =>
    rcases List.mem_cons.mp hc with heq | hmem
    · subst heq
      simp [collectHistories, h, isOkE]
    · unfold collectHistories
      cases hfind : assocFind a groups with
      | none => simp [isOkE]
      | some evs =>
        have := ih hmem
        cases hrec : collectHistories groups tl with
        | error err => simp [Except.map, isOkE]
        | ok tlres => rw [hrec] at this; simp [isOkE] at this

theorem collectHistories_ok_ne_nil (groups : List (ℕ × List RawEvent))
    (hg : ∀ p ∈ groups, p.2 ≠ []) (cardIds : List ℕ)
    (res : List (ℕ × List RawEvent))
    (hr : collectHistories groups cardIds = .ok res) : ∀ p ∈ res, p.2 ≠ [] := by
  induction cardIds generalizing res with
  | nil =>
    simp only [collectHistories, Except.ok.injEq] at hr
    subst hr; simp
  | cons a tl ih =>
    unfold collectHistories at hr
    cases hfind : assocFind a groups with
    | none => rw [hfind] at hr; exact absurd hr (by simp)
    | some evs =>
      rw [hfind] at hr
      cases hrec : collectHistories groups tl with
      | error err => rw [hrec] at hr; exact absurd hr (by simp [Except.map])
      | ok tlres =>
        rw [hrec] at hr
        simp only [Except.map, Except.ok.injEq] at hr
        subst hr
        intro p hp
        rcases List.mem_cons.mp hp with heq | hmem
        · subst heq
          exact sortByPos_ne_nil evs (hg _ (assocFind_some_mem a evs groups hfind))
        · exact ih tlres hrec p hmem

/-- C4: history loading in `Board.__init__` fails whenever some card has
zero associated events (the count assertion or, with stray event groups,
the per-card lookup), and a successful construction never yields a card
with an empty history; moreover with no stray events and distinct card
ids, a zero-event card trips exactly the count assertion. -/
theorem board_rejects_empty_history (cardIds : List ℕ) (events : List RawEvent) :
    ((∃ c ∈ cardIds, ∀ e ∈ events, e.cardId ≠ c) →
      isOkE (loadHistories cardIds events) = false) ∧
    (∀ res, loadHistories cardIds events = .ok res → ∀ p ∈ res, p.2 ≠ []) ∧
    (cardIds.Nodup → (∀ e ∈ events, e.cardId ∈ cardIds) →
      (∃ c ∈ cardIds, ∀ e ∈ events, e.cardId ≠ c) →
      loadHistories cardIds events = .error .countMismatch) := by
  refine ⟨?_, ?_, ?_⟩
  · rintro ⟨c, hc, hnone⟩
    have hfind : assocFind c (groupEvents events) = none :=
      (assocFind_groupEvents_none c events).mpr hnone
    unfold loadHistories
    by_cases hlen : cardIds.length = (groupEvents events).length
    · simp only [if_pos hlen]
      exact collectHistories_fails _ _ c hc hfind
    · simp [hlen, isOkE]
  · intro res hres
    unfold loadHistories at hres
    by_cases hlen : cardIds.length = (groupEvents events).length
    · rw [if_pos hlen] at hres
      exact collectHistories_ok_ne_nil _ (groupEvents_group_ne_nil events) _ _ hres
    · rw [if_neg hlen] at hres
      exact absurd hres (by simp)
  · rintro hnodup hin ⟨c, hc, hnone⟩
    have hkey : ∀ k ∈ (groupEvents events).map Prod.fst,
        ∃ e ∈ events, e.cardId = k := by
      intro k hk
      by_contra hcon
      push_neg at hcon
      have : assocFind k (groupEvents events) = none :=
        (assocFind_groupEvents_none k events).mpr hcon
      rw [assocFind_none_iff_keys] at this
      exact this hk
    have hsub : (groupEvents events).map Prod.fst ⊆
        cardIds.filter fun x => x ≠ c := by
      intro k hk
      obtain ⟨e, he, hek⟩ := hkey k hk
      rw [List.mem_filter]
      refine ⟨hek ▸ hin e he, ?_⟩
      simp only [decide_eq_true_eq]
      intro hkc
      exact hnone e he (hek.trans hkc)
    have hlt : ((groupEvents events).map Prod.fst).length <
        cardIds.length := by
      calc ((groupEvents events).map Prod.fst).length
          ≤ (cardIds.filter fun x => x ≠ c).length :=
            ((groupEvents_keys_nodup events).subperm hsub).length_le
        _ < cardIds.length := by
            apply List.length_filter_lt_length_iff_exists.mpr
            exact ⟨c, hc, by simp⟩
    have hne : cardIds.length ≠ (groupEvents events).length := by
      rw [← List.length_map (groupEvents events) Prod.fst]
      omega
    simp [loadHistories, hne]

/-- Witness for C4: card 2 has no events, so loading fails (and fails with
the count assertion), while a consistent dataset loads with nonempty
histories. -/
theorem board_rejects_empty_history_witness :
    ((∃ c ∈ [1, 2], ∀ e ∈ [(⟨1, 0⟩ : RawEvent)], e.cardId ≠ c) ∧
      isOkE (loadHistories [1, 2] [⟨1, 0⟩]) = false) ∧
    loadHistories [1, 2] [⟨1, 0⟩] = .error .countMismatch := by
  have hex : ∃ c ∈ [1, 2], ∀ e ∈ [(⟨1, 0⟩ : RawEvent)], e.cardId ≠ c :=
    ⟨2, by decide, by decide⟩
  refine ⟨⟨hex, (board_rejects_empty_history [1, 2] [⟨1, 0⟩]).1 hex⟩, ?_⟩
  exact (board_rejects_empty_history [1, 2] [⟨1, 0⟩]).2.2 (by decide)
    (by decide) hex

/-- C5 (divergence): the `singleton` decorator's wrapper takes no
argument beyond `self`, so requesting the working-hours variant
`trt(hours=True)` raises a TypeError instead of returning working hours;
only the bare call is reachable, and it returns the wall-hours total over
exactly the station-owning moves, open move included with `today`
substituted (here: the backlog occupancy is excluded and the open station
occupancy contributes `(7200 - 3600)/3600 = 1` hour). -/
theorem trt_hours_variant_raises :
    trtCall (fun x y => y - x) 7200
        ⟨[(1, ⟨1, "Backlog", none⟩), (2, ⟨2, "Dev", some ⟨1, none, 1, 0⟩⟩)],
         [(1, ⟨1, none, 1, 0⟩)]⟩
        [.creation 0 1, .move 3600 1 2] (some true) = .error .typeError ∧
    trtCall (fun x y => y - x) 7200
        ⟨[(1, ⟨1, "Backlog", none⟩), (2, ⟨2, "Dev", some ⟨1, none, 1, 0⟩⟩)],
         [(1, ⟨1, none, 1, 0⟩)]⟩
        [.creation 0 1, .move 3600 1 2] none = .ok 1 := by
  constructor
  · rfl
  · show Except.ok (trtBody _ _ _ _ false) = _
    norm_num [trtBody, movesOf, movesLoop, creationDate, headToLaneId,
      Board.getLane, assocFind]

/-- C6 (divergence): for a card that passed through a "major changes"
lane, `trt_lane` fetches the boolean `major_changes` flag and then
evaluates `move['in'] < major_changes`, ordering a datetime against
`True` — a TypeError under Python 3 — instead of excluding the moves
that entered before the major-changes date. -/
theorem trt_lane_major_changes_raises :
    majorChangesOf
        ⟨[(1, ⟨1, "Major Changes", none⟩), (2, ⟨2, "Dev", some ⟨1, none, 1, 0⟩⟩)],
         [(1, ⟨1, none, 1, 0⟩)]⟩
        [.creation 0 1, .move 3600 1 2] = .ok true ∧
    trt_lane (fun x y => y - x) 7200
        ⟨[(1, ⟨1, "Major Changes", none⟩), (2, ⟨2, "Dev", some ⟨1, none, 1, 0⟩⟩)],
         [(1, ⟨1, none, 1, 0⟩)]⟩
        [.creation 0 1, .move 3600 1 2]
        ⟨2, "Dev", some ⟨1, none, 1, 0⟩⟩ false = .error .typeError := by
  constructor
  · rfl
  · rfl

/-- C7 (divergence): for a card that has never entered a station-owning
or major-changes lane, `start_date` raises UnboundLocalError (its local
variable is never assigned), so `plan()` fails instead of seeding the
chain from the current moment; for a card with a start date the chain is
the claimed cumulative business-hours projection (here with
`dd h t = t + h`: targets 7 and 4 from seed 0 give due dates 7 and 11). -/
theorem plan_unstarted_card_raises :
    planOf (fun h t => t + h)
        ⟨[(1, ⟨1, "Backlog", none⟩)], [(1, ⟨1, none, 2, 1⟩)]⟩ ⟨3⟩
        [.creation 0 1] = .error .unboundLocal ∧
    planOf (fun h t => t + h)
        ⟨[(1, ⟨1, "Backlog", none⟩), (2, ⟨2, "Dev", some ⟨1, none, 2, 1⟩⟩)],
         [(1, ⟨1, none, 2, 1⟩), (2, ⟨2, none, 1, 1⟩)]⟩ ⟨3⟩
        [.creation 0 2] =
      .ok [(1, ⟨⟨1, none, 2, 1⟩, 7, 7⟩), (2, ⟨⟨2, none, 1, 1⟩, 4, 11⟩)] := by
  constructor
  · rfl
  · norm_num [planOf, startDateOf, startDateScan, movesOf, movesLoop,
      creationDate, headToLaneId, Board.getLane, assocFind, maxStationPos,
      planLoop, Station.target, List.range', Except.map]

/-- C8 (counterexample): the translation is not "rewrite an ID suffix
then convert camel case" — the code rewrites every occurrence of `ID`,
so on `IDA` (a leading, non-suffix occurrence) the two recipes differ
(`_id_a` versus `i_d_a`). -/
theorem snake_case_not_suffix_rule :
    snake_case "IDA".toList ≠ snakeCaseSpec "IDA".toList := by decide

/-- C8 (amended): `snake_case` rewrites every occurrence of `ID` to
`_id` (not only a suffix) and then converts camel case, so `BoardId`
maps to `board_id`, `CardID` to `card_id`, `IDA` — with a non-suffix
occurrence — to `_id_a`, and a single-letter name to its lowercase
form. -/
theorem snake_case_translation :
    snake_case "BoardId".toList = "board_id".toList ∧
    snake_case "CardID".toList = "card_id".toList ∧
    snake_case "IDA".toList = "_id_a".toList ∧
    ∀ c : Char, snake_case [c] = [c.toLower] := by
  refine ⟨by decide, by decide, by decide, fun c => ?_⟩
  have h1 : replaceID [c] = [c] := by
    by_cases h : c = 'I'
    · subst h; decide
    · simp [replaceID, h]
  simp [snake_case, h1]

/-- C9 (divergence): the archive-marking update filters the cards
collection by the field `CardId`, which card documents do not carry
(they carry `Id`), so a still-fetchable card absent from the fetched
board is left untouched rather than marked archived; the deletion branch
(filtering by `Id` / `CardId` correctly) does remove the card and its
events. -/
theorem archive_marking_ineffective :
    reconcileMissing (fun _ => true) [] [7]
        [[("Id", DbVal.nat 7)]] [[("CardId", DbVal.nat 7)]] =
      ([[("Id", DbVal.nat 7)]], [[("CardId", DbVal.nat 7)]]) ∧
    assocFind "InCabinet" [("Id", DbVal.nat 7)] = none ∧
    reconcileMissing (fun _ => false) [] [7]
        [[("Id", DbVal.nat 7)]] [[("CardId", DbVal.nat 7)]] =
      (([] : List Doc), ([] : List Doc)) := by
  refine ⟨?_, by decide, ?_⟩ <;> decide

/-- C10: `deck`'s include and exclude filters read a missing attribute as
`None`: a card lacking an attribute named in `include` is kept only when
the required value is `None` (so it never matches a non-`None` include
pair), and a card lacking an attribute named in `exclude` with required
value `None` is removed even though the attribute does not exist. -/
theorem deck_absent_attr (cards : List CardAttrs)
    (incl excl : List (String × PyVal)) (c : CardAttrs) (k : String)
    (hmiss : assocFind k c.attrs = none) :
    ((∃ v, (k, v) ∈ incl ∧ v ≠ PyVal.none) → c ∉ deck cards incl excl) ∧
    ((k, PyVal.none) ∈ excl → c ∉ deck cards incl excl) := by
  have hget : getAttrD c k = PyVal.none := by simp [getAttrD, hmiss]
  constructor
  · rintro ⟨v, hv, hvne⟩ hmem
    rw [deck] at hmem
    have h1 := (List.mem_filter.mp hmem).1
    have h2 := (List.mem_filter.mp h1).2
    rw [List.all_eq_true] at h2
    have h3 := h2 (k, v) hv
    simp only [decide_eq_true_eq, hget] at h3
    exact hvne h3.symm
  · intro hv hmem
    rw [deck] at hmem
    have h2 := (List.mem_filter.mp hmem).2
    simp only [Bool.not_eq_true', List.any_eq_false, decide_eq_true_eq] at h2
    exact h2 (k, PyVal.none) hv hget

/-- Witness for C10: a card with only a `size` attribute is excluded by
an include pair on the absent `owner` attribute, and removed by an
exclude pair requiring `owner = None`. -/
theorem deck_absent_attr_witness :
    (⟨[("size", PyVal.nat 3)]⟩ : CardAttrs) ∉
      deck [⟨[("size", PyVal.nat 3)]⟩] [("owner", PyVal.nat 1)] [] ∧
    (⟨[("size", PyVal.nat 3)]⟩ : CardAttrs) ∉
      deck [⟨[("size", PyVal.nat 3)]⟩] [] [("owner", PyVal.none)] :=
  ⟨(deck_absent_attr [⟨[("size", PyVal.nat 3)]⟩] [("owner", PyVal.nat 1)] []
      ⟨[("size", PyVal.nat 3)]⟩ "owner" (by decide)).1
      ⟨PyVal.nat 1, by decide, by decide⟩,
   (deck_absent_attr [⟨[("size", PyVal.nat 3)]⟩] [] [("owner", PyVal.none)]
      ⟨[("size", PyVal.nat 3)]⟩ "owner" (by decide)).2 (by decide)⟩

end Kanpy
